/-
Verification of the ai-stack-starter RAG core.

Shallow embedding of:
  * apps/backend/app/rag/document_processor.py  (DocumentProcessor, create_document_id)
  * apps/backend/app/rag/pipeline.py            (RAGPipeline.query / query_stream / _build_context)
  * packages/vector-db/src/vector_db/base.py    (VectorMetadata.to_dict / from_dict)
  * packages/vector-db/src/vector_db/stores/pgvector.py (PgVectorStore.upsert)

Python strings are modelled as `List Char` (one element per Python character).
Python ints are modelled as `Int`; float scores as `Rat` (every Python float
denotes a rational, and Python compares floats/ints exactly).
-/
import Mathlib

set_option maxHeartbeats 1000000

/-! ## Python string primitives -/

/-- A Python `str`: a finite sequence of characters. -/
abbrev PyStr := List Char

/-- Characters of a Lean string literal, used to write concrete Python strings. -/
def pystr (s : String) : PyStr := s.data

/-- Effective index of a Python slice bound `n` on a string of length `len`:
negative indices count from the end, and the result is clamped into `[0, len]`. -/
def sliceIdx (len : Nat) (n : Int) : Nat :=
  if n < 0 then (n + len).toNat else min n.toNat len

/-- Python slice `s[i:j]` (step 1). Empty when the effective start is not
before the effective stop. -/
def pySlice (s : PyStr) (i j : Int) : PyStr :=
  (s.take (sliceIdx s.length j)).drop (sliceIdx s.length i)

/-- Python `s.rfind(c)` for a single-character needle: the highest index of `c`
in `s`, or `-1` when absent. -/
def rfind (s : PyStr) (c : Char) : Int :=
  (List.range s.length).foldl
    (fun acc i => if s.get? i = some c then (i : Int) else acc) (-1)

/-- The whitespace characters stripped by Python `str.strip()` that can occur
in ASCII text (space, tab, newline, carriage return, vertical tab, form feed). -/
def isPySpace (c : Char) : Bool :=
  c = ' ' || c = '\t' || c = '\n' || c = '\r' || c = '\x0b' || c = '\x0c'

/-- Python `s.strip()`: drop leading and trailing whitespace. -/
def pyStrip (s : PyStr) : PyStr :=
  ((s.dropWhile isPySpace).reverse.dropWhile isPySpace).reverse

/-! ## DocumentProcessor._chunk_text (document_processor.py, lines 144-186)

The `while start < len(text)` loop is modelled with explicit fuel; `none`
means the fuel ran out, so `(∀ fuel, … = none)` states non-termination.
The float test `last_period > self.chunk_size * 0.5` is modelled as
`2 * last_period > chunk_size`, which is exactly the comparison CPython
performs for any `chunk_size` below `2^53` (multiplying by `0.5` is exact
in binary floating point, and int/float comparison in CPython is exact). -/

/-- One full body of the chunking loop plus the remaining iterations, with
`fuel` bounding the number of iterations.  Mirrors the Python source:
window `[start, start+chunk_size)`, optional sentence-boundary truncation,
`chunks.append(chunk.strip())`, `start = end - chunk_overlap`, and the
`if end >= len(text): break` guard. -/
def chunkTextGo (cs co : Int) (text : PyStr) :
    Nat → Int → List PyStr → Option (List PyStr)
  | 0, _, _ => none
  | fuel + 1, start, acc =>
    if start < (text.length : Int) then
      let e0 : Int := start + cs
      let chunk0 := pySlice text start e0
      let step :=
        if e0 < (text.length : Int) then
          let lastPeriod := max (rfind chunk0 '.') (max (rfind chunk0 '?') (rfind chunk0 '!'))
          if 2 * lastPeriod > cs then
            (pySlice chunk0 0 (lastPeriod + 1), start + lastPeriod + 1)
          else
            (chunk0, e0)
        else
          (chunk0, e0)
      let acc' := acc ++ [pyStrip step.1]
      if step.2 ≥ (text.length : Int) then
        some acc'
      else
        chunkTextGo cs co text fuel (step.2 - co) acc'
    else
      some acc

/-- `DocumentProcessor._chunk_text(text)` with an explicit iteration bound. -/
def chunkText (cs co : Int) (fuel : Nat) (text : PyStr) : Option (List PyStr) :=
  chunkTextGo cs co text fuel 0 []

/-- A processed chunk (`DocumentChunk` in document_processor.py). The
pass-through `metadata` dict (`metadata or {}`, identical on every chunk
and untouched by chunking) is omitted. -/
structure DocumentChunk where
  text : PyStr
  chunk_id : Nat
  total_chunks : Nat
  source : PyStr
  deriving Repr, DecidableEq

/-- `DocumentProcessor.process_text(text, source)`: chunk the text and wrap
each chunk with its index and the total count. -/
def processText (cs co : Int) (fuel : Nat) (text source : PyStr) :
    Option (List DocumentChunk) :=
  (chunkText cs co fuel text).map fun chunks =>
    (List.range chunks.length).map fun i =>
      { text := chunks.getD i []
        chunk_id := i
        total_chunks := chunks.length
        source := source }

/-- The `DocumentProcessor` resulting from `__init__`. -/
structure DocumentProcessor where
  chunk_size : Int
  chunk_overlap : Int
  deriving Repr, DecidableEq

/-- `DocumentProcessor.__init__(chunk_size, chunk_overlap)` (lines 38-50):
the constructor stores both parameters and logs; it performs no validation,
so it never raises (`Except.error` is unreachable). -/
def DocumentProcessor.init (cs co : Int) : Except String DocumentProcessor :=
  .ok { chunk_size := cs, chunk_overlap := co }

/-! ## Claims C4, C5, C6 — chunking -/

/-- Helper: slicing `[0:j]` with `j` at least the length is the identity. -/
theorem pySlice_of_length_le (s : PyStr) (j : Int) (h : (s.length : Int) ≤ j) :
    pySlice s 0 j = s := by
  unfold pySlice sliceIdx
  have h0 : ¬ ((0 : Int) < 0) := by omega
  have hj : ¬ (j < 0) := by omega
  have hlen : s.length ≤ j.toNat := by omega
  simp [h0, hj, Nat.min_eq_right hlen, List.take_of_length_le (Nat.le_refl _)]

/-- C4: false on the code. With `chunk_size = 10`, `chunk_overlap = 9`
(valid: `0 ≤ 9 < 10`) and the 21-character text `"aaaaaa.aaaaaa.aaaaaa."`,
the chunking loop of `process_text` never terminates: the sentence-boundary
truncation sets `end = 7`, `start` becomes negative (`7 - 9 = -2`), Python's
negative-index slicing then yields empty chunks, and the loop state `start`
cycles `0 → -2 → -1 → 0` forever. For every iteration bound the loop is
still running (`chunkTextGo … = none`). -/
theorem c4_chunking_does_not_terminate :
    ((0 : Int) ≤ 9 ∧ (9 : Int) < 10) ∧
    ∀ (fuel : Nat) (acc : List PyStr),
      chunkTextGo 10 9 (pystr "aaaaaa.aaaaaa.aaaaaa.") fuel 0 acc = none := by
  refine ⟨⟨by omega, by omega⟩, ?_⟩
  intro fuel
  induction fuel using Nat.strong_induction_on with
  | _ fuel ih =>
    match fuel with
    | 0 => intro acc; rfl
    | 1 => intro acc; rfl
    | 2 => intro acc; rfl
    | (k + 3) =>
      intro acc
      have hcyc : chunkTextGo 10 9 (pystr "aaaaaa.aaaaaa.aaaaaa.") (k + 3) 0 acc =
          chunkTextGo 10 9 (pystr "aaaaaa.aaaaaa.aaaaaa.") k 0
            (((acc ++ [pystr "aaaaaa."]) ++ [[]]) ++ [[]]) := rfl
      rw [hcyc]
      exact ih k (by omega) _

/-- C5 counterexample: on the empty text (`len(text) = 0 ≤ chunk_size`),
`process_text` returns zero chunks, not one: the `while start < len(text)`
loop never runs. -/
theorem c5_empty_text_yields_no_chunk :
    processText 1000 200 1 (pystr "") (pystr "doc") = some [] ∧
    (processText 1000 200 1 (pystr "") (pystr "doc")).map List.length = some 0 := by
  exact ⟨rfl, rfl⟩

/-- C5 (amended): for every NONEMPTY text whose length is at most
`chunk_size`, `process_text` returns exactly one `DocumentChunk`, whose text
is the whitespace-stripped input, with `chunk_id 0` and `total_chunks 1`. -/
theorem c5_single_chunk (cs co : Int) (fuel : Nat) (text source : PyStr)
    (hne : text ≠ []) (hlen : (text.length : Int) ≤ cs) (hfuel : 0 < fuel) :
    processText cs co fuel text source =
      some [{ text := pyStrip text, chunk_id := 0, total_chunks := 1,
              source := source }] := by
  obtain ⟨f, rfl⟩ : ∃ f, fuel = f + 1 := ⟨fuel - 1, by omega⟩
  have hpos : 0 < text.length := List.length_pos.mpr hne
  have hstart : (0 : Int) < (text.length : Int) := by exact_mod_cast hpos
  have hnotlt : ¬ (cs < (text.length : Int)) := by omega
  have hchunk : pySlice text 0 cs = text := pySlice_of_length_le text cs hlen
  unfold processText chunkText chunkTextGo
  simp [hstart, hnotlt, hlen, hchunk]
  rfl

/-- C5 witness at a concrete input: text `" hi "` (length 4 ≤ 1000) yields
the single stripped chunk `"hi"`. -/
theorem c5_single_chunk_witness :
    processText 1000 200 1 (pystr " hi ") (pystr "s") =
      some [{ text := pyStrip (pystr " hi "), chunk_id := 0, total_chunks := 1,
              source := pystr "s" }] :=
  c5_single_chunk 1000 200 1 (pystr " hi ") (pystr "s")
    (by decide) (by decide) (by decide)

/-- C6: false on the code. `DocumentProcessor.__init__` performs no
validation at all: constructing a processor with
`chunk_overlap = chunk_size = 100` succeeds (no exception is raised), and
the resulting degenerate parameters make the chunking loop run forever
(here on the two-character text `"ab"` with `chunk_size = chunk_overlap = 1`:
the loop state `start` stays at `0`). -/
theorem c6_constructor_accepts_degenerate_params :
    DocumentProcessor.init 100 100 =
      .ok { chunk_size := 100, chunk_overlap := 100 } ∧
    ∀ (fuel : Nat) (acc : List PyStr),
      chunkTextGo 1 1 (pystr "ab") fuel 0 acc = none := by
  refine ⟨rfl, ?_⟩
  intro fuel
  induction fuel with
  | zero => intro acc; rfl
  | succ f ih =>
    intro acc
    have hcyc : chunkTextGo 1 1 (pystr "ab") (f + 1) 0 acc =
        chunkTextGo 1 1 (pystr "ab") f 0 (acc ++ [pystr "a"]) := rfl
    rw [hcyc]
    exact ih _

/-! ## SHA-256 (FIPS 180-4), as used by `hashlib.sha256` -/

/-- Truncate to a 32-bit word. -/
def w32 (x : Nat) : Nat := x % 4294967296

/-- Rotate a 32-bit word right by `n` bits. -/
def rotr32 (n x : Nat) : Nat := (x >>> n) ||| w32 (x <<< (32 - n))

/-- The 64 SHA-256 round constants (FIPS 180-4, in decimal). -/
def sha256K : List Nat :=
  [1116352408, 1899447441, 3049323471, 3921009573, 961987163,
   1508970993, 2453635748, 2870763221, 3624381080, 310598401,
   607225278, 1426881987, 1925078388, 2162078206, 2614888103,
   3248222580, 3835390401, 4022224774, 264347078, 604807628,
   770255983, 1249150122, 1555081692, 1996064986, 2554220882,
   2821834349, 2952996808, 3210313671, 3336571891, 3584528711,
   113926993, 338241895, 666307205, 773529912, 1294757372,
   1396182291, 1695183700, 1986661051, 2177026350, 2456956037,
   2730485921, 2820302411, 3259730800, 3345764771, 3516065817,
   3600352804, 4094571909, 275423344, 430227734, 506948616,
   659060556, 883997877, 958139571, 1322822218, 1537002063,
   1747873779, 1955562222, 2024104815, 2227730452, 2361852424,
   2428436474, 2756734187, 3204031479, 3329325298]

/-- The SHA-256 initial hash value (in decimal). -/
def sha256H0 : List Nat :=
  [1779033703, 3144134277, 1013904242, 2773480762,
   1359893119, 2600822924, 528734635, 1541459225]

/-- Extend 16 message-schedule words to 64 (the `W` array). -/
def sha256Schedule (ws : List Nat) : List Nat :=
  (List.range 48).foldl
    (fun w _ =>
      let n := w.length
      let w15 := w.getD (n - 15) 0
      let w2 := w.getD (n - 2) 0
      let s0 := (rotr32 7 w15) ^^^ (rotr32 18 w15) ^^^ (w15 >>> 3)
      let s1 := (rotr32 17 w2) ^^^ (rotr32 19 w2) ^^^ (w2 >>> 10)
      w ++ [w32 (w.getD (n - 16) 0 + s0 + w.getD (n - 7) 0 + s1)])
    ws

/-- One SHA-256 compression round applied to the working variables. -/
def sha256Round (st : List Nat) (kw : Nat × Nat) : List Nat :=
  match st with
  | [a, b, c, d, e, f, g, h] =>
    let s1 := (rotr32 6 e) ^^^ (rotr32 11 e) ^^^ (rotr32 25 e)
    let ch := (e &&& f) ^^^ ((2 ^ 32 - 1 - e) &&& g)
    let t1 := w32 (h + s1 + ch + kw.1 + kw.2)
    let s0 := (rotr32 2 a) ^^^ (rotr32 13 a) ^^^ (rotr32 22 a)
    let maj := (a &&& b) ^^^ (a &&& c) ^^^ (b &&& c)
    let t2 := w32 (s0 + maj)
    [w32 (t1 + t2), a, b, c, w32 (d + t1), e, f, g]
  | st => st

/-- Compress one 16-word block into the running hash value. -/
def sha256Compress (h : List Nat) (block : List Nat) : List Nat :=
  let ws := sha256Schedule block
  let st := (sha256K.zip ws).foldl sha256Round h
  (h.zip st).map fun p => w32 (p.1 + p.2)

/-- Group a byte list into big-endian 32-bit words (4 bytes each). -/
def bytesToWords : List Nat → List Nat
  | a :: b :: c :: d :: rest => (((a * 256 + b) * 256 + c) * 256 + d) :: bytesToWords rest
  | _ => []

/-- Consume 16 words at a time, compressing each block. -/
def sha256Blocks (h : List Nat) : List Nat → List Nat
  | w0 :: w1 :: w2 :: w3 :: w4 :: w5 :: w6 :: w7 ::
    w8 :: w9 :: w10 :: w11 :: w12 :: w13 :: w14 :: w15 :: rest =>
      sha256Blocks
        (sha256Compress h [w0, w1, w2, w3, w4, w5, w6, w7,
                           w8, w9, w10, w11, w12, w13, w14, w15]) rest
  | _ => h

/-- SHA-256 padding: append `0x80`, zeros to 56 mod 64, then the bit length
as an 8-byte big-endian integer. -/
def sha256Pad (msg : List Nat) : List Nat :=
  let l := msg.length
  let k := (64 - ((l + 9) % 64)) % 64
  let bits := l * 8
  msg ++ [0x80] ++ List.replicate k 0 ++
    (List.range 8).reverse.map fun i => bits / 256 ^ i % 256

/-- SHA-256 of a byte string: the eight 32-bit words of the digest. -/
def sha256 (msg : List Nat) : List Nat :=
  sha256Blocks sha256H0 (bytesToWords (sha256Pad msg))

/-- Lower-case hex digit for `n < 16`. -/
def hexDigit (n : Nat) : Char := (pystr "0123456789abcdef").getD n '0'

/-- A 32-bit word as 8 lower-case hex characters. -/
def hex8 (x : Nat) : List Char :=
  (List.range 8).reverse.map fun i => hexDigit (x / 16 ^ i % 16)

/-- `hashlib.sha256(...).hexdigest()`: the 64-character hex digest. -/
def hexDigest (words : List Nat) : PyStr := words.flatMap hex8

/-! ## UTF-8 encoding (`str.encode()`) -/

/-- UTF-8 bytes of one Unicode scalar value. -/
def utf8Char (c : Char) : List Nat :=
  let n := c.toNat
  if n < 0x80 then [n]
  else if n < 0x800 then [0xC0 + n / 64, 0x80 + n % 64]
  else if n < 0x10000 then [0xE0 + n / 4096, 0x80 + n / 64 % 64, 0x80 + n % 64]
  else [0xF0 + n / 262144, 0x80 + n / 4096 % 64, 0x80 + n / 64 % 64, 0x80 + n % 64]

/-- `s.encode()`: UTF-8 bytes of a Python string. -/
def utf8Encode (s : PyStr) : List Nat := s.flatMap utf8Char

/-! ## create_document_id (document_processor.py, lines 189-197) -/

/-- `create_document_id(source, content)`: `"doc_"` followed by the first 16
hex characters of `sha256(source + ":" + content[:1000])`. -/
def createDocumentId (source content : PyStr) : PyStr :=
  pystr "doc_" ++
    (hexDigest (sha256 (utf8Encode (source ++ pystr ":" ++ content.take 1000)))).take 16

/-- Validation of the SHA-256 embedding against the FIPS 180-4 test vector
for the message `"abc"`. -/
theorem sha256_abc_test_vector :
    hexDigest (sha256 (utf8Encode (pystr "abc"))) =
      pystr "ba7816bf8f01cfea414140de5dae2223b00361a396177a9cb410ff61f20015ad" := by
  rfl

/-- C9: `create_document_id` is the string `"doc_"` followed by the first 16
hex characters of `sha256(source + ":" + content[:1000])`; it is a pure
function of `(source, first 1000 characters of content)`: identical inputs
yield identical ids, and two contents agreeing on their first 1000
characters yield the same id for the same source. -/
theorem c9_create_document_id :
    (∀ source content : PyStr,
      createDocumentId source content =
        pystr "doc_" ++
          (hexDigest (sha256 (utf8Encode
            (source ++ pystr ":" ++ content.take 1000)))).take 16) ∧
    (∀ source content : PyStr,
      createDocumentId source content = createDocumentId source content) ∧
    (∀ (source c₁ c₂ : PyStr), c₁.take 1000 = c₂.take 1000 →
      createDocumentId source c₁ = createDocumentId source c₂) := by
  refine ⟨fun _ _ => rfl, fun _ _ => rfl, fun source c₁ c₂ h => ?_⟩
  unfold createDocumentId
  rw [h]

/-- Helper: taking the length of a replicated block out of it plus a tail. -/
theorem take_replicate_append (n : Nat) (c : Char) (t : PyStr) :
    (List.replicate n c ++ t).take n = List.replicate n c := by
  induction n with
  | zero => rfl
  | succ k ih => simp [List.replicate_succ, ih]

/-- C9 witness: with a 1001-character content `"bb…bx"` and a 1001-character
content `"bb…by"` that agree on their first 1000 characters, the document
ids coincide. -/
theorem c9_create_document_id_witness :
    createDocumentId (pystr "a") (List.replicate 1000 'b' ++ pystr "x") =
      createDocumentId (pystr "a") (List.replicate 1000 'b' ++ pystr "y") := by
  refine c9_create_document_id.2.2 (pystr "a") _ _ ?_
  rw [take_replicate_append, take_replicate_append]

/-! ## datetime values and ISO-8601 serialization

`VectorMetadata` timestamps are `datetime` objects. A datetime is modelled
by its calendar fields plus an optional UTC offset in minutes (`none` for a
naive datetime; `datetime.now(UTC)` always carries `some 0`).
`datetime.isoformat()` prints `YYYY-MM-DDTHH:MM:SS[.ffffff][+HH:MM]`
(the fractional part only when `microsecond ≠ 0`), and
`datetime.fromisoformat()` parses that grammar back. -/

/-- A Python `datetime`, with the timezone as a UTC offset in minutes. -/
structure PyDatetime where
  year : Nat
  month : Nat
  day : Nat
  hour : Nat
  minute : Nat
  second : Nat
  microsecond : Nat
  tzOffset : Option Int
  deriving Repr, DecidableEq

/-- The decimal digit character for `n < 10`. -/
def digitChar (n : Nat) : Char := Char.ofNat (48 + n)

/-- `n` printed in decimal, zero-padded to exactly `k` digits
(most significant first); the low `k` digits when `n` has more. -/
def padDigits (k n : Nat) : List Char :=
  (List.range k).reverse.map fun i => digitChar (n / 10 ^ i % 10)

/-- Read exactly `k` decimal digits, folding them onto `acc`. -/
def readDigitsGo : Nat → Nat → List Char → Option (Nat × List Char)
  | 0, acc, cs => some (acc, cs)
  | _ + 1, _, [] => none
  | k + 1, acc, c :: cs =>
    if '0' ≤ c ∧ c ≤ '9' then readDigitsGo k (acc * 10 + (c.toNat - 48)) cs
    else none

/-- Read exactly `k` decimal digits as a number. -/
def readDigits (k : Nat) (cs : List Char) : Option (Nat × List Char) :=
  readDigitsGo k 0 cs

/-- Consume one expected character. -/
def expectChar (c : Char) : List Char → Option (List Char)
  | x :: xs => if x = c then some xs else none
  | [] => none

/-- `datetime.isoformat()`. -/
def isoformat (d : PyDatetime) : PyStr :=
  padDigits 4 d.year ++ ['-'] ++ padDigits 2 d.month ++ ['-'] ++ padDigits 2 d.day ++
  ['T'] ++ padDigits 2 d.hour ++ [':'] ++ padDigits 2 d.minute ++ [':'] ++
  padDigits 2 d.second ++
  (if d.microsecond = 0 then [] else '.' :: padDigits 6 d.microsecond) ++
  (match d.tzOffset with
   | none => []
   | some off =>
     (if off < 0 then '-' else '+') ::
       (padDigits 2 (off.natAbs / 60) ++ [':'] ++ padDigits 2 (off.natAbs % 60)))

/-- Parse the optional fractional-seconds part `[.ffffff]`. -/
def parseFrac : List Char → Option (Nat × List Char)
  | '.' :: s' => readDigits 6 s'
  | s => some (0, s)

/-- Parse the optional trailing UTC offset `[±HH:MM]` (the rest of the
input must be exactly that, or empty for a naive datetime). -/
def parseTz : List Char → Option (Option Int)
  | [] => some none
  | sign :: s' =>
    if sign = '+' ∨ sign = '-' then do
      let (oh, s') ← readDigits 2 s'
      let s' ← expectChar ':' s'
      let (om, s') ← readDigits 2 s'
      match s' with
      | [] =>
        some (some (if sign = '-' then -((oh * 60 + om : Nat) : Int)
                    else ((oh * 60 + om : Nat) : Int)))
      | _ => none
    else none

/-- `datetime.fromisoformat()` on the grammar `isoformat` emits
(`YYYY-MM-DDTHH:MM:SS[.ffffff][±HH:MM]`); `none` models `ValueError`. -/
def fromisoformat (s : PyStr) : Option PyDatetime := do
  let (y, s) ← readDigits 4 s
  let s ← expectChar '-' s
  let (mo, s) ← readDigits 2 s
  let s ← expectChar '-' s
  let (da, s) ← readDigits 2 s
  let s ← expectChar 'T' s
  let (h, s) ← readDigits 2 s
  let s ← expectChar ':' s
  let (mi, s) ← readDigits 2 s
  let s ← expectChar ':' s
  let (se, s) ← readDigits 2 s
  let frac ← parseFrac s
  let tz ← parseTz frac.2
  some { year := y, month := mo, day := da, hour := h, minute := mi,
         second := se, microsecond := frac.1, tzOffset := tz }

/-- Digit characters are in `['0', '9']` and decode to their value. -/
theorem digitChar_spec : ∀ d < 10,
    ('0' ≤ digitChar d ∧ digitChar d ≤ '9') ∧ (digitChar d).toNat - 48 = d := by
  decide

/-- Reading `k` padded digits recovers `n % 10^k` (folded onto `acc`) and
leaves the rest of the input untouched. -/
theorem readDigitsGo_pad (k : Nat) : ∀ (acc n : Nat) (rest : List Char),
    readDigitsGo k acc (padDigits k n ++ rest) =
      some (acc * 10 ^ k + n % 10 ^ k, rest) := by
  induction k with
  | zero =>
    intro acc n rest
    simp [padDigits, readDigitsGo, Nat.mod_one]
  | succ k ih =>
    intro acc n rest
    have hrange : (List.range (k + 1)).reverse = k :: (List.range k).reverse := by
      rw [List.range_succ, List.reverse_append]
      rfl
    have hdigit := digitChar_spec (n / 10 ^ k % 10) (Nat.mod_lt _ (by omega))
    have hpad : padDigits (k + 1) n = digitChar (n / 10 ^ k % 10) :: padDigits k n := by
      simp [padDigits, hrange]
    rw [hpad, List.cons_append]
    show readDigitsGo (k + 1) acc (digitChar (n / 10 ^ k % 10) :: (padDigits k n ++ rest)) = _
    rw [readDigitsGo]
    rw [if_pos hdigit.1]
    rw [hdigit.2, ih]
    congr 1
    have hsplit : n % 10 ^ (k + 1) = 10 ^ k * (n / 10 ^ k % 10) + n % 10 ^ k := by
      conv_lhs => rw [pow_succ, Nat.mod_mul]
      ring
    rw [hsplit]
    ring_nf

/-- Reading `k` padded digits of `n < 10^k` recovers `n` exactly. -/
theorem readDigits_pad (k n : Nat) (rest : List Char) (h : n < 10 ^ k) :
    readDigits k (padDigits k n ++ rest) = some (n, rest) := by
  unfold readDigits
  rw [readDigitsGo_pad]
  simp [Nat.mod_eq_of_lt h]

/-- Bounds under which `isoformat` output parses back exactly; they hold for
every value a real `datetime` can take. -/
def ValidDT (d : PyDatetime) : Prop :=
  d.year < 10000 ∧ d.month < 100 ∧ d.day < 100 ∧ d.hour < 100 ∧
  d.minute < 100 ∧ d.second < 100 ∧ d.microsecond < 1000000 ∧
  ∀ off ∈ d.tzOffset, off.natAbs < 6000

instance (d : PyDatetime) : Decidable (ValidDT d) := by
  unfold ValidDT
  infer_instance

/-- Consuming one expected character that is present. -/
theorem expectChar_cons (c : Char) (rest : List Char) :
    expectChar c (c :: rest) = some rest := by
  simp [expectChar]

/-- Stepping `fromisoformat` through the fixed date-time prefix
`YYYY-MM-DDTHH:MM:SS`, leaving the fraction and timezone tail. -/
theorem fromisoformat_shape (y mo da h mi se : Nat) (tail : List Char)
    (hy : y < 10 ^ 4) (hmo : mo < 10 ^ 2) (hda : da < 10 ^ 2) (hh : h < 10 ^ 2)
    (hmi : mi < 10 ^ 2) (hse : se < 10 ^ 2) :
    fromisoformat
      (padDigits 4 y ++ '-' :: (padDigits 2 mo ++ '-' :: (padDigits 2 da ++
        'T' :: (padDigits 2 h ++ ':' :: (padDigits 2 mi ++ ':' ::
          (padDigits 2 se ++ tail)))))) =
    (parseFrac tail).bind fun frac => (parseTz frac.2).bind fun tz =>
      some { year := y, month := mo, day := da, hour := h, minute := mi,
             second := se, microsecond := frac.1, tzOffset := tz } := by
  simp only [fromisoformat, Option.bind_eq_bind, readDigits_pad, expectChar_cons,
    Option.some_bind, hy, hmo, hda, hh, hmi, hse]

/-- `parseFrac` on an empty tail. -/
theorem parseFrac_nil : parseFrac [] = some (0, []) := rfl

/-- `parseFrac` when the tail starts with a timezone sign. -/
theorem parseFrac_plus (r : List Char) : parseFrac ('+' :: r) = some (0, '+' :: r) := rfl

/-- `parseFrac` when the tail starts with a negative timezone sign. -/
theorem parseFrac_minus (r : List Char) : parseFrac ('-' :: r) = some (0, '-' :: r) := rfl

/-- `parseFrac` on a 6-digit fraction. -/
theorem parseFrac_dot (us : Nat) (rest : List Char) (h : us < 10 ^ 6) :
    parseFrac ('.' :: (padDigits 6 us ++ rest)) = some (us, rest) := by
  simp only [parseFrac, readDigits_pad _ _ _ h]

/-- `parseTz` on an exhausted input: a naive datetime. -/
theorem parseTz_nil : parseTz [] = some none := rfl

/-- `parseTz` on a positive offset `+HH:MM`. -/
theorem parseTz_plus (oh om : Nat) (hoh : oh < 10 ^ 2) (hom : om < 10 ^ 2) :
    parseTz ('+' :: (padDigits 2 oh ++ ':' :: padDigits 2 om)) =
      some (some ((oh * 60 + om : Nat) : Int)) := by
  simp only [parseTz, Option.bind_eq_bind, readDigits_pad _ _ _ hoh, Option.some_bind,
    expectChar_cons]
  rw [show padDigits 2 om = padDigits 2 om ++ [] from (List.append_nil _).symm,
    readDigits_pad _ _ _ hom]
  simp

/-- `parseTz` on a negative offset `-HH:MM`. -/
theorem parseTz_minus (oh om : Nat) (hoh : oh < 10 ^ 2) (hom : om < 10 ^ 2) :
    parseTz ('-' :: (padDigits 2 oh ++ ':' :: padDigits 2 om)) =
      some (some (-((oh * 60 + om : Nat) : Int))) := by
  simp only [parseTz, Option.bind_eq_bind, readDigits_pad _ _ _ hoh, Option.some_bind,
    expectChar_cons]
  rw [show padDigits 2 om = padDigits 2 om ++ [] from (List.append_nil _).symm,
    readDigits_pad _ _ _ hom]
  simp

/-- `isoformat` output, right-associated into the shape `fromisoformat_shape`
consumes. -/
theorem isoformat_shape (d : PyDatetime) :
    isoformat d =
      padDigits 4 d.year ++ '-' :: (padDigits 2 d.month ++ '-' ::
        (padDigits 2 d.day ++ 'T' :: (padDigits 2 d.hour ++ ':' ::
          (padDigits 2 d.minute ++ ':' :: (padDigits 2 d.second ++
            ((if d.microsecond = 0 then [] else '.' :: padDigits 6 d.microsecond) ++
             (match d.tzOffset with
              | none => []
              | some off =>
                (if off < 0 then '-' else '+') ::
                  (padDigits 2 (off.natAbs / 60) ++ ':' ::
                    padDigits 2 (off.natAbs % 60))))))))) := by
  simp [isoformat, List.append_assoc]

/-- `fromisoformat` is a left inverse of `isoformat` on valid datetimes:
the ISO-8601 round trip is exact (in particular to second precision). -/
theorem fromisoformat_isoformat (d : PyDatetime) (hd : ValidDT d) :
    fromisoformat (isoformat d) = some d := by
  obtain ⟨y, mo, da, h, mi, se, us, tz⟩ := d
  obtain ⟨hy, hmo, hda, hh, hmi, hse, hus, htz⟩ := hd
  simp only at hy hmo hda hh hmi hse hus htz
  have hy' : y < 10 ^ 4 := by norm_num; exact hy
  have hmo' : mo < 10 ^ 2 := by norm_num; exact hmo
  have hda' : da < 10 ^ 2 := by norm_num; exact hda
  have hh' : h < 10 ^ 2 := by norm_num; exact hh
  have hmi' : mi < 10 ^ 2 := by norm_num; exact hmi
  have hse' : se < 10 ^ 2 := by norm_num; exact hse
  have hus' : us < 10 ^ 6 := by norm_num; exact hus
  rw [isoformat_shape, fromisoformat_shape _ _ _ _ _ _ _ hy' hmo' hda' hh' hmi' hse']
  have hfrac : parseFrac ('.' :: padDigits 6 us) = some (us, []) := by
    have := parseFrac_dot us [] hus'
    simpa using this
  rcases tz with _ | off
  · by_cases hus0 : us = 0 <;>
      simp [hus0, parseFrac_nil, hfrac, parseTz_nil, Option.some_bind']
  · have hoh : off.natAbs / 60 < 10 ^ 2 := by
      have := htz off rfl
      omega
    have hom : off.natAbs % 60 < 10 ^ 2 := by
      have : off.natAbs % 60 < 60 := Nat.mod_lt _ (by omega)
      omega
    by_cases hoff : off < 0
    · have hval : -((off.natAbs / 60 * 60 + off.natAbs % 60 : Nat) : Int) = off := by
        omega
      by_cases hus0 : us = 0 <;>
        simp [hus0, hoff, parseFrac_minus, parseFrac_dot _ _ hus',
          parseTz_minus _ _ hoh hom, Option.some_bind', hval]
      all_goals simp only [Int.abs_eq_natAbs]
      all_goals omega
    · have hval : ((off.natAbs / 60 * 60 + off.natAbs % 60 : Nat) : Int) = off := by
        omega
      by_cases hus0 : us = 0 <;>
        simp [hus0, hoff, parseFrac_plus, parseFrac_dot _ _ hus',
          parseTz_plus _ _ hoh hom, Option.some_bind', hval]

/-! ## VectorMetadata.to_dict / from_dict (vector_db/base.py, lines 39-92)

Python dicts are modelled as insertion-ordered association lists with
`String` keys (two Python dicts are equal iff they hold the same key/value
pairs; with no duplicate keys the ordered representation is faithful).
Values cover everything a `VectorMetadata` dump can contain: `None`,
strings, ints, lists, and `datetime` objects; `extras` values range over
the same type. -/

/-- A Python value as stored in a metadata dict. -/
inductive Value where
  | vNull
  | vStr (s : PyStr)
  | vInt (n : Int)
  | vList (l : List Value)
  | vDatetime (d : PyDatetime)

/-- A Python dict: insertion-ordered key/value pairs. -/
abbrev PyDict := List (String × Value)

/-- `d[k]` lookup (first matching key). -/
def dictGet (d : PyDict) (k : String) : Option Value :=
  (d.find? fun p => p.1 = k).map (·.2)

/-- `d[k] = v` assignment: replaces the value in place when the key exists,
appends otherwise (Python dict insertion-order semantics). -/
def dictSet (d : PyDict) (k : String) (v : Value) : PyDict :=
  if (d.find? fun p => p.1 = k).isSome then
    d.map fun p => if p.1 = k then (k, v) else p
  else
    d ++ [(k, v)]

/-- `d.update(e)`: assign every pair of `e` into `d` in order. -/
def dictUpdate (d e : PyDict) : PyDict :=
  e.foldl (fun acc p => dictSet acc p.1 p.2) d

/-- The `VectorMetadata` pydantic model. -/
structure VectorMetadata where
  text : PyStr
  source : Option PyStr
  chunk_id : Option Int
  total_chunks : Option Int
  category : Option PyStr
  tags : List PyStr
  created_at : PyDatetime
  updated_at : PyDatetime
  extras : PyDict

/-- Encoding of an optional string field in `model_dump()`. -/
def optStr : Option PyStr → Value
  | none => .vNull
  | some s => .vStr s

/-- Encoding of an optional int field in `model_dump()`. -/
def optInt : Option Int → Value
  | none => .vNull
  | some n => .vInt n

/-- `self.model_dump()` without its `extras` entry (which `to_dict`
pops immediately): the declared fields in declaration order. -/
def modelDump (m : VectorMetadata) : PyDict :=
  [("text", .vStr m.text), ("source", optStr m.source),
   ("chunk_id", optInt m.chunk_id), ("total_chunks", optInt m.total_chunks),
   ("category", optStr m.category), ("tags", .vList (m.tags.map .vStr)),
   ("created_at", .vDatetime m.created_at), ("updated_at", .vDatetime m.updated_at)]

/-- `VectorMetadata.to_dict()`: dump the model, merge `extras` into the top
level, then replace both timestamps by their ISO strings. `none` models the
`AttributeError` raised by `.isoformat()` when an `extras` entry has
overwritten a timestamp with a non-datetime value. -/
def toDict (m : VectorMetadata) : Option PyDict :=
  let data := dictUpdate (modelDump m) m.extras
  match dictGet data "created_at" with
  | some (.vDatetime dc) =>
    let data := dictSet data "created_at" (.vStr (isoformat dc))
    match dictGet data "updated_at" with
    | some (.vDatetime du) => some (dictSet data "updated_at" (.vStr (isoformat du)))
    | _ => none
  | _ => none

/-- The keys of `cls.model_fields` used by `from_dict` to split known fields
from extras. -/
def knownFields : List String :=
  ["text", "source", "chunk_id", "total_chunks", "category", "tags",
   "created_at", "updated_at", "extras"]

/-- pydantic validation of the required `text: str` field. -/
def decStr : Option Value → Option PyStr
  | some (.vStr t) => some t
  | _ => none

/-- pydantic validation of an optional `str | None` field (absent ↦ default
`None`). -/
def decOptStr : Option Value → Option (Option PyStr)
  | none => some none
  | some .vNull => some none
  | some (.vStr s) => some (some s)
  | _ => none

/-- pydantic validation of an optional `int | None` field. -/
def decOptInt : Option Value → Option (Option Int)
  | none => some none
  | some .vNull => some none
  | some (.vInt n) => some (some n)
  | _ => none

/-- pydantic validation of a `list[str]` element list. -/
def decStrList : List Value → Option (List PyStr)
  | [] => some []
  | .vStr s :: rest => (decStrList rest).map (s :: ·)
  | _ => none

/-- pydantic validation of the `tags: list[str]` field (absent ↦ default
`[]`). -/
def decTags : Option Value → Option (List PyStr)
  | none => some []
  | some (.vList l) => decStrList l
  | _ => none

/-- pydantic validation of a `datetime` field. A string here is impossible
(from_dict has already parsed it); an absent field would be filled with the
wall clock (`datetime.now(UTC)`), which has no place in the embedding, so it
is modelled as failure — no claim exercises that path. -/
def decDT : Option Value → Option PyDatetime
  | some (.vDatetime d) => some d
  | _ => none

/-- `VectorMetadata.from_dict(data)`: split `data` into known fields and
extras, parse ISO timestamp strings, then validate every declared field as
`cls(**known_data)` does; `none` models a raised `ValueError` /
`ValidationError`. -/
def fromDict (data : PyDict) : Option VectorMetadata := do
  let knownData := data.filter fun p => p.1 ∈ knownFields
  let extrasData := data.filter fun p => p.1 ∉ knownFields
  let knownData ←
    match dictGet knownData "created_at" with
    | some (.vStr s) =>
      (fromisoformat s).map fun dt => dictSet knownData "created_at" (.vDatetime dt)
    | _ => some knownData
  let knownData ←
    match dictGet knownData "updated_at" with
    | some (.vStr s) =>
      (fromisoformat s).map fun dt => dictSet knownData "updated_at" (.vDatetime dt)
    | _ => some knownData
  let text ← decStr (dictGet knownData "text")
  let source ← decOptStr (dictGet knownData "source")
  let chunkId ← decOptInt (dictGet knownData "chunk_id")
  let totalChunks ← decOptInt (dictGet knownData "total_chunks")
  let category ← decOptStr (dictGet knownData "category")
  let tags ← decTags (dictGet knownData "tags")
  let createdAt ← decDT (dictGet knownData "created_at")
  let updatedAt ← decDT (dictGet knownData "updated_at")
  some { text := text, source := source, chunk_id := chunkId,
         total_chunks := totalChunks, category := category, tags := tags,
         created_at := createdAt, updated_at := updatedAt, extras := extrasData }

/-! ## Claim C8 — metadata round trip -/

/-- Assigning a fresh key appends it. -/
theorem dictSet_append (d : PyDict) (k : String) (v : Value)
    (h : ∀ p ∈ d, p.1 ≠ k) : dictSet d k v = d ++ [(k, v)] := by
  have hfind : (d.find? fun p => p.1 = k) = none := by
    rw [List.find?_eq_none]
    intro p hp
    simp [h p hp]
  simp [dictSet, hfind]

/-- Updating with a dict of fresh, distinct keys appends it. -/
theorem dictUpdate_append (e : PyDict) : ∀ (d : PyDict),
    (∀ p ∈ e, ∀ q ∈ d, q.1 ≠ p.1) → (e.map Prod.fst).Nodup →
    dictUpdate d e = d ++ e := by
  induction e with
  | nil => intro d _ _; simp [dictUpdate]
  | cons hd tl ih =>
    intro d hfresh hnd
    have hset : dictSet d hd.1 hd.2 = d ++ [(hd.1, hd.2)] :=
      dictSet_append d hd.1 hd.2 fun q hq => hfresh hd (by simp) q hq
    have htl : dictUpdate (d ++ [(hd.1, hd.2)]) tl = (d ++ [(hd.1, hd.2)]) ++ tl := by
      apply ih
      · intro p hp q hq
        rcases List.mem_append.mp hq with hq | hq
        · exact hfresh p (by simp [hp]) q hq
        · simp at hq
          subst hq
          simp only [List.map_cons, List.nodup_cons] at hnd
          intro hcontra
          exact hnd.1 (hcontra ▸ List.mem_map_of_mem Prod.fst hp)
      · simpa using hnd.of_cons
    calc dictUpdate d (hd :: tl)
        = dictUpdate (dictSet d hd.1 hd.2) tl := rfl
      _ = dictUpdate (d ++ [(hd.1, hd.2)]) tl := by rw [hset]
      _ = (d ++ [(hd.1, hd.2)]) ++ tl := htl
      _ = d ++ hd :: tl := by simp

/-- Replacing a key that a dict does not contain leaves it unchanged. -/
theorem map_setKey_of_ne (e : PyDict) (k : String) (v : Value)
    (h : ∀ p ∈ e, p.1 ≠ k) :
    (e.map fun p => if p.1 = k then (k, v) else p) = e := by
  induction e with
  | nil => rfl
  | cons hd tl ih =>
    simp only [List.map_cons, if_neg (h hd (by simp))]
    rw [ih fun p hp => h p (by simp [hp])]

/-- Filtering a dict of unknown keys by key-known-ness drops everything. -/
theorem filter_known_of_disjoint (e : PyDict)
    (h : ∀ k ∈ e.map Prod.fst, k ∉ knownFields) :
    (e.filter fun p => p.1 ∈ knownFields) = [] := by
  rw [List.filter_eq_nil_iff]
  intro p hp
  simpa using h p.1 (List.mem_map_of_mem Prod.fst hp)

/-- Filtering a dict of unknown keys by key-unknown-ness keeps everything. -/
theorem filter_unknown_of_disjoint (e : PyDict)
    (h : ∀ k ∈ e.map Prod.fst, k ∉ knownFields) :
    (e.filter fun p => p.1 ∉ knownFields) = e := by
  rw [List.filter_eq_self]
  intro p hp
  simpa using h p.1 (List.mem_map_of_mem Prod.fst hp)

/-- Optional strings decode back. -/
theorem decOptStr_optStr (o : Option PyStr) : decOptStr (some (optStr o)) = some o := by
  cases o <;> rfl

/-- Optional ints decode back. -/
theorem decOptInt_optInt (o : Option Int) : decOptInt (some (optInt o)) = some o := by
  cases o <;> rfl

/-- String lists decode back. -/
theorem decStrList_map (l : List PyStr) : decStrList (l.map .vStr) = some l := by
  induction l with
  | nil => rfl
  | cons hd tl ih => simp [decStrList, ih]

/-- The dict `to_dict` produces under disjoint extras keys: the dumped
fields with ISO timestamps, followed by the extras pairs. -/
def encDump (m : VectorMetadata) : PyDict :=
  [("text", .vStr m.text), ("source", optStr m.source),
   ("chunk_id", optInt m.chunk_id), ("total_chunks", optInt m.total_chunks),
   ("category", optStr m.category), ("tags", .vList (m.tags.map .vStr)),
   ("created_at", .vStr (isoformat m.created_at)),
   ("updated_at", .vStr (isoformat m.updated_at))]

/-- Computing `to_dict` when the extras keys are fresh and distinct. -/
theorem toDict_eq (m : VectorMetadata)
    (hkeys : (m.extras.map Prod.fst).Nodup)
    (hdisj : ∀ k ∈ m.extras.map Prod.fst, k ∉ knownFields) :
    toDict m = some (encDump m ++ m.extras) := by
  have hdump : ∀ q ∈ modelDump m, q.1 ∈ knownFields := by
    intro q hq
    simp [modelDump] at hq
    rcases hq with rfl | rfl | rfl | rfl | rfl | rfl | rfl | rfl <;> simp [knownFields]
  have hupd : dictUpdate (modelDump m) m.extras = modelDump m ++ m.extras := by
    apply dictUpdate_append m.extras (modelDump m) ?_ hkeys
    intro p hp q hq heq
    exact hdisj p.1 (List.mem_map_of_mem Prod.fst hp) (heq ▸ hdump q hq)
  have hextra_ne : ∀ (k : String), k ∈ knownFields →
      ∀ p ∈ m.extras, p.1 ≠ k := by
    intro k hk p hp heq
    exact hdisj p.1 (List.mem_map_of_mem Prod.fst hp) (heq ▸ hk)
  have hca : ∀ p ∈ m.extras, p.1 ≠ "created_at" :=
    hextra_ne "created_at" (by simp [knownFields])
  have hua : ∀ p ∈ m.extras, p.1 ≠ "updated_at" :=
    hextra_ne "updated_at" (by simp [knownFields])
  unfold toDict
  rw [hupd]
  simp only [dictGet, dictSet, modelDump, List.cons_append, List.find?]
  simp [map_setKey_of_ne m.extras _ _ hca, map_setKey_of_ne m.extras _ _ hua,
    encDump, List.find?]

/-- Decoding the dict `to_dict` produced recovers the metadata exactly. -/
theorem fromDict_encDump (m : VectorMetadata)
    (hdisj : ∀ k ∈ m.extras.map Prod.fst, k ∉ knownFields)
    (hca : ValidDT m.created_at) (hua : ValidDT m.updated_at) :
    fromDict (encDump m ++ m.extras) = some m := by
  have h1 : ((encDump m).filter fun p => p.1 ∈ knownFields) = encDump m := by
    simp [encDump, knownFields]
  have h2 : ((encDump m).filter fun p => p.1 ∉ knownFields) = [] := by
    simp [encDump, knownFields]
  unfold fromDict
  rw [List.filter_append, List.filter_append, h1, h2,
    filter_known_of_disjoint _ hdisj, filter_unknown_of_disjoint _ hdisj]
  simp [dictGet, dictSet, encDump, fromisoformat_isoformat _ hca,
    fromisoformat_isoformat _ hua, decStr, decOptStr_optStr, decOptInt_optInt,
    decTags, decStrList_map, decDT, Option.some_bind']

/-- A metadata value whose `extras` map reuses the known field name
`"text"`. -/
def collidingMetadata : VectorMetadata :=
  { text := pystr "orig", source := some (pystr "src"), chunk_id := some 3,
    total_chunks := some 7, category := none, tags := [pystr "t1"],
    created_at := ⟨2024, 1, 2, 3, 4, 5, 0, some 0⟩,
    updated_at := ⟨2024, 1, 2, 3, 4, 5, 0, some 0⟩,
    extras := [("text", .vStr (pystr "boom"))] }

/-- C8 counterexample: with the arbitrary extras key `"text"`,
`to_dict` (`data.update(extras)`) overwrites the known `text` field, so
`from_dict(to_dict(m))` returns text `"boom"` instead of `"orig"` and an
empty extras map instead of the original one-entry map — the round trip is
not the identity on arbitrary extras keys. -/
theorem c8_extras_collision_breaks_roundtrip :
    ((toDict collidingMetadata).bind fromDict).map
        (fun m => (m.text, m.extras.length)) = some (pystr "boom", 0) ∧
    collidingMetadata.text = pystr "orig" ∧
    collidingMetadata.extras.length = 1 := by
  exact ⟨rfl, rfl, rfl⟩

/-- C8 (amended): for every `VectorMetadata` whose extras keys are distinct
and disjoint from the known field names, and whose timestamps are valid
datetimes, `from_dict(to_dict(m))` reproduces `m` exactly: every known
field, both timestamps (exactly, hence at least to second precision,
through their ISO-8601 encoding), and the extras map. -/
theorem c8_to_dict_from_dict_roundtrip (m : VectorMetadata)
    (hkeys : (m.extras.map Prod.fst).Nodup)
    (hdisj : ∀ k ∈ m.extras.map Prod.fst, k ∉ knownFields)
    (hca : ValidDT m.created_at) (hua : ValidDT m.updated_at) :
    (toDict m).bind fromDict = some m := by
  rw [toDict_eq m hkeys hdisj, Option.some_bind',
    fromDict_encDump m hdisj hca hua]

/-- C8 witness: a concrete metadata value with two fresh extras keys and an
aware timestamp with microseconds round-trips exactly. -/
theorem c8_to_dict_from_dict_roundtrip_witness :
    (toDict
      { text := pystr "orig", source := some (pystr "src"), chunk_id := some 3,
        total_chunks := some 7, category := none, tags := [pystr "t1", pystr "t2"],
        created_at := ⟨2024, 1, 2, 3, 4, 5, 123456, some 0⟩,
        updated_at := ⟨2024, 1, 2, 3, 4, 6, 0, some (-90)⟩,
        extras := [("k1", .vInt 5), ("k2", .vStr (pystr "v"))] }).bind fromDict =
    some
      { text := pystr "orig", source := some (pystr "src"), chunk_id := some 3,
        total_chunks := some 7, category := none, tags := [pystr "t1", pystr "t2"],
        created_at := ⟨2024, 1, 2, 3, 4, 5, 123456, some 0⟩,
        updated_at := ⟨2024, 1, 2, 3, 4, 6, 0, some (-90)⟩,
        extras := [("k1", .vInt 5), ("k2", .vStr (pystr "v"))] } :=
  c8_to_dict_from_dict_roundtrip _ (by decide) (by decide) (by decide) (by decide)

/-! ## PgVectorStore.upsert (stores/pgvector.py, lines 152-201)

The store is modelled as a list of rows; `session.merge` is insert-or-
replace keyed on the primary key `id`. The length check is translated
EXACTLY as written in the source: the Python chained comparison
`len(vectors) != len(metadata) != len(ids)` means
`len(vectors) != len(metadata) and len(metadata) != len(ids)`. -/

/-- A row of the pgvector table, as built in the upsert loop. -/
structure PgRow where
  id : String
  vector : List Rat
  text : PyStr
  source : Option PyStr
  category : Option PyStr
  metadata : PyDict
  created_at : PyDatetime

/-- `session.merge(doc)`: replace the row with the same id, else append. -/
def pgMerge (store : List PgRow) (row : PgRow) : List PgRow :=
  if store.any fun q => q.id = row.id then
    store.map fun q => if q.id = row.id then row else q
  else
    store ++ [row]

/-- `PgVectorStore.upsert(vectors, metadata, ids)`: the (chained) length
check, then one merged row per `zip(ids, vectors, metadata)` triple (Python
`zip` truncates to the shortest input), returning `len(vectors)`.
`meta.to_dict()` failure (an uncaught exception) rolls back the session. -/
def pgUpsert (store : List PgRow) (vectors : List (List Rat))
    (metadata : List VectorMetadata) (ids : List String) :
    Except String (List PgRow × Nat) :=
  if vectors.length ≠ metadata.length ∧ metadata.length ≠ ids.length then
    .error "vectors, metadata, and ids must have the same length"
  else
    let triples := ids.zip (vectors.zip metadata)
    match triples.mapM (fun t => (toDict t.2.2).map fun md =>
        ({ id := t.1, vector := t.2.1, text := t.2.2.text,
           source := t.2.2.source, category := t.2.2.category,
           metadata := md, created_at := t.2.2.created_at } : PgRow)) with
    | none => .error "AttributeError"
    | some rows => .ok (rows.foldl pgMerge store, vectors.length)

/-- A minimal valid metadata value for upsert scenarios. -/
def plainMeta (t : String) : VectorMetadata :=
  { text := pystr t, source := none, chunk_id := none, total_chunks := none,
    category := none, tags := [],
    created_at := ⟨2024, 1, 1, 0, 0, 0, 0, some 0⟩,
    updated_at := ⟨2024, 1, 1, 0, 0, 0, 0, some 0⟩, extras := [] }

/-- C7: false on the code. The guard is the Python chained comparison
`len(vectors) != len(metadata) != len(ids)`, which only raises when BOTH
adjacent pairs differ. With `len(vectors) = 3`, `len(metadata) = 2`,
`len(ids) = 2`, the guard passes (`2 != 2` is false), `zip` silently
truncates to 2 triples, two rows are written to the empty store, and the
call returns 3 — no validation error, and the store is changed. (With
`len(ids) = 3` the same vectors/metadata DO raise, so the behaviour is not
independent of `len(ids)` as the claim states.) -/
theorem c7_upsert_length_check_is_chained :
    ((pgUpsert [] [[1], [2], [3]] [plainMeta "m1", plainMeta "m2"]
        ["a", "b"]).map fun r => (r.1.map PgRow.id, r.2)) =
      .ok (["a", "b"], 3) ∧
    pgUpsert [] [[1], [2], [3]] [plainMeta "m1", plainMeta "m2"]
        ["a", "b", "c"] =
      .error "vectors, metadata, and ids must have the same length" := by
  exact ⟨rfl, rfl⟩

/-! ## RAGPipeline (pipeline.py)

The LLM client and vector store are modelled as an oracle of pure
functions fixing the outcome of each external call (`Except.error` for a
raised exception). Scores and `min_similarity` are `Rat` (Python compares
floats exactly; every float is a rational). `latency_ms` is wall-clock
time and is omitted from the embedding; no claim mentions it. -/

/-- A vector-store search result as the pipeline consumes it. -/
structure RagSearchResult where
  id : String
  score : Rat
  text : PyStr

/-- `RAGConfig` (defaults from the source). -/
structure RAGConfig where
  max_context_tokens : Int := 4000
  top_k : Int := 10
  min_similarity : Rat := 7 / 10
  chunk_size : Int := 1000
  chunk_overlap : Int := 200

/-- Token usage of a completion. -/
structure LLMUsage where
  total_tokens : Int
  total_cost : Rat

/-- A (non-streaming) completion result. -/
structure LLMResponse where
  content : PyStr
  usage : LLMUsage

/-- One streaming chunk: a text delta (empty models Python-falsy
`None`/`""`) and the optional usage carried by the terminal chunk. -/
structure StreamChunk where
  delta : PyStr
  usage : Option Int

/-- A chat message role. -/
inductive LLMRole where
  | system
  | user
  | assistant
  deriving Repr, DecidableEq

/-- A chat message. -/
structure LLMMessage where
  role : LLMRole
  content : PyStr

/-- Outcomes of the pipeline's external calls: embedding, vector search,
completion, and streaming (the chunks yielded, then an optional exception
raised mid-stream). -/
structure LLMOracle where
  embed : PyStr → Except String (List (List Rat))
  search : List Rat → Int → Option PyDict → Except String (List RagSearchResult)
  complete : List LLMMessage → Except String LLMResponse
  stream : List LLMMessage → List StreamChunk × Option String

/-- Step 3 of `query`: keep results with `score >= min_similarity`. -/
def filterResults (cfg : RAGConfig) (results : List RagSearchResult) :
    List RagSearchResult :=
  results.filter fun r => cfg.min_similarity ≤ r.score

/-- The `[Source {i+1}]\n{text}\n` block of `_build_context`. -/
def fmtPart (i : Nat) (r : RagSearchResult) : PyStr :=
  pystr "[Source " ++ pystr (toString (i + 1)) ++ pystr "]\n" ++ r.text ++ pystr "\n"

/-- The `parts` list of `_build_context`: formatted blocks accumulated with
a running `len(text) // 4` token estimate, stopping (`break`) before the
first block that would exceed `max_context_tokens`. -/
def buildParts (maxTok : Int) : Nat → Int → List RagSearchResult → List PyStr
  | _, _, [] => []
  | i, tok, r :: rest =>
    let text := fmtPart i r
    let tokens : Int := (text.length : Int) / 4
    if tok + tokens > maxTok then []
    else text :: buildParts maxTok (i + 1) (tok + tokens) rest

/-- `RAGPipeline._build_context(results)`: the parts joined by
`"\n---\n\n"`. -/
def buildContext (maxTok : Int) (results : List RagSearchResult) : PyStr :=
  List.intercalate (pystr "\n---\n\n") (buildParts maxTok 0 0 results)

/-- `RAGPipeline._build_prompt(question, context, conversation_history)`:
system message, the last 6 history messages, then the user message that
embeds the context and the question. -/
def buildPrompt (question context : PyStr) (history : List LLMMessage) :
    List LLMMessage :=
  [{ role := .system,
     content := pystr ("You are a helpful AI assistant. Use the provided context to answer " ++
       "the user's question accurately and concisely. If the context doesn't " ++
       "contain enough information, say so. Always cite sources using [Source N] notation.") }] ++
  history.drop (history.length - 6) ++
  [{ role := .user,
     content := pystr "Context:\n" ++ context ++ pystr "\n\nQuestion: " ++
       question ++ pystr "\n\nAnswer:" }]

/-- `RAGResponse` (latency omitted: wall clock). -/
structure RAGResponse where
  answer : PyStr
  sources : List String
  source_texts : List PyStr
  tokens_used : Int
  cost : Rat
  context_chunks : Nat

/-- `RAGPipeline.query`: embed, search, filter, build context and prompt,
complete, assemble the response. Any exception re-raises (`.error`);
`query_embedding[0]` on an empty embedding list raises `IndexError`.
The constant completion arguments (`temperature=0.7`, `max_tokens=2000`)
are absorbed into the oracle's `complete`. -/
def query (cfg : RAGConfig) (o : LLMOracle) (question : PyStr)
    (history : List LLMMessage) (filters : Option PyDict) :
    Except String RAGResponse :=
  match o.embed question with
  | .error e => .error e
  | .ok [] => .error "IndexError: list index out of range"
  | .ok (emb0 :: _) =>
    match o.search emb0 cfg.top_k filters with
    | .error e => .error e
    | .ok searchResults =>
      let filtered := filterResults cfg searchResults
      let context := buildContext cfg.max_context_tokens filtered
      let prompt := buildPrompt question context history
      match o.complete prompt with
      | .error e => .error e
      | .ok resp =>
        .ok { answer := resp.content,
              sources := filtered.map (·.id),
              source_texts := (filtered.take 3).map
                (fun r => r.text.take 200 ++ pystr "..."),
              tokens_used := resp.usage.total_tokens,
              cost := resp.usage.total_cost,
              context_chunks := filtered.length }

/-- An event yielded by `query_stream` (`done` carries the aggregated token
count and `sources_count`; latency omitted: wall clock). -/
inductive StreamEvent where
  | sources (items : List (String × PyStr × Rat))
  | token (content : PyStr)
  | done (tokens_used : Int) (sources_count : Nat)
  | error (msg : String)

/-- The `token` events of the streaming loop: one per chunk with a truthy
(non-empty) delta, in order. -/
def tokenEvents (chunks : List StreamChunk) : List StreamEvent :=
  (chunks.filterMap fun c => if c.delta ≠ [] then some c.delta else none).map
    StreamEvent.token

/-- The final `total_tokens`: the last usage any chunk carried, else 0. -/
def finalTokens (chunks : List StreamChunk) : Int :=
  chunks.foldl (fun acc c => match c.usage with | some u => (u : Int) | none => acc) 0

/-- The body of the `try:` block in `query_stream`: the events yielded and
the exception (if any) escaping the block. Events already yielded before an
exception stay yielded — an async generator's consumer has already seen
them. -/
def queryStreamBody (cfg : RAGConfig) (o : LLMOracle) (question : PyStr)
    (history : List LLMMessage) (filters : Option PyDict) :
    List StreamEvent × Option String :=
  match o.embed question with
  | .error e => ([], some e)
  | .ok [] => ([], some "IndexError: list index out of range")
  | .ok (emb0 :: _) =>
    match o.search emb0 cfg.top_k filters with
    | .error e => ([], some e)
    | .ok searchResults =>
      let filtered := filterResults cfg searchResults
      let srcEvent := StreamEvent.sources ((filtered.take 3).map
        fun r => (r.id, r.text.take 200 ++ pystr "...", r.score))
      let context := buildContext cfg.max_context_tokens filtered
      let prompt := buildPrompt question context history
      let streamed := o.stream prompt
      match streamed.2 with
      | some e => (srcEvent :: tokenEvents streamed.1, some e)
      | none =>
        (srcEvent :: tokenEvents streamed.1 ++
          [.done (finalTokens streamed.1) filtered.length], none)

/-- `RAGPipeline.query_stream`: the `try` body, with the
`except Exception` clause turning any escaped exception into a terminal
`error` event. The second component is the exception propagated to the
consumer — `none` by construction, because the handler catches
everything. -/
def queryStream (cfg : RAGConfig) (o : LLMOracle) (question : PyStr)
    (history : List LLMMessage) (filters : Option PyDict) :
    List StreamEvent × Option String :=
  match queryStreamBody cfg o question history filters with
  | (evs, none) => (evs, none)
  | (evs, some e) => (evs ++ [.error e], none)

/-! ## Claims C1, C2, C3, C10 — pipeline -/

/-- The formatted blocks of a result list starting at label index `i`. -/
def fmtList : Nat → List RagSearchResult → List PyStr
  | _, [] => []
  | i, r :: rest => fmtPart i r :: fmtList (i + 1) rest

/-- `_build_context` keeps a prefix of the formatted filtered results:
the context is assembled from the first `k` results only. -/
theorem buildParts_prefix (m : Int) (l : List RagSearchResult) :
    ∀ (i : Nat) (tok : Int),
    ∃ k, k ≤ l.length ∧ buildParts m i tok l = fmtList i (l.take k) := by
  induction l with
  | nil => intro i tok; exact ⟨0, Nat.le_refl _, rfl⟩
  | cons r rest ih =>
    intro i tok
    unfold buildParts
    by_cases hbreak : tok + (((fmtPart i r).length : Int)) / 4 > m
    · exact ⟨0, Nat.zero_le _, by simp [hbreak, fmtList]⟩
    · obtain ⟨k, hk, heq⟩ := ih (i + 1) (tok + (((fmtPart i r).length : Int)) / 4)
      refine ⟨k + 1, by simpa using hk, ?_⟩
      simp only [if_neg hbreak, List.take_succ_cons, fmtList]
      rw [heq]

/-- Whether a stream event is an `error` event. -/
def isErrorEv : StreamEvent → Bool
  | .error _ => true
  | _ => false

/-- C1: in `query`, results below `min_similarity` are excluded everywhere
downstream. On every successful run: `context_chunks` is the number of
results with `score ≥ min_similarity`; `sources` is exactly the ids of the
filtered results, in order (all of them, even those the token budget later
excludes from context); no sub-threshold result is in the filtered list;
and the assembled context is built only from (a prefix of) the filtered
results' formatted texts. -/
theorem c1_query_excludes_subthreshold (cfg : RAGConfig) (o : LLMOracle)
    (q : PyStr) (hist : List LLMMessage) (fl : Option PyDict)
    (e0 : List Rat) (erest : List (List Rat)) (results : List RagSearchResult)
    (resp : LLMResponse)
    (he : o.embed q = .ok (e0 :: erest))
    (hs : o.search e0 cfg.top_k fl = .ok results)
    (hc : o.complete (buildPrompt q (buildContext cfg.max_context_tokens
            (filterResults cfg results)) hist) = .ok resp) :
    query cfg o q hist fl = .ok
      { answer := resp.content,
        sources := (filterResults cfg results).map (·.id),
        source_texts := ((filterResults cfg results).take 3).map
          (fun r => r.text.take 200 ++ pystr "..."),
        tokens_used := resp.usage.total_tokens,
        cost := resp.usage.total_cost,
        context_chunks := (filterResults cfg results).length } ∧
    (∀ r ∈ results, r.score < cfg.min_similarity →
      r ∉ filterResults cfg results) ∧
    (∃ k, k ≤ (filterResults cfg results).length ∧
      buildContext cfg.max_context_tokens (filterResults cfg results) =
        List.intercalate (pystr "\n---\n\n")
          (fmtList 0 ((filterResults cfg results).take k))) := by
  refine ⟨?_, ?_, ?_⟩
  · simp only [query, he, hs, hc]
  · intro r hr hlt hmem
    have := (List.mem_filter.mp hmem).2
    simp only [decide_eq_true_eq] at this
    exact absurd this (not_le.mpr hlt)
  · obtain ⟨k, hk, heq⟩ := buildParts_prefix cfg.max_context_tokens
      (filterResults cfg results) 0 0
    exact ⟨k, hk, by rw [buildContext, heq]⟩

/-- An oracle for witness runs: one embedding, two search results (scores
0.9 and 0.5), a fixed completion, and a three-chunk stream whose middle
chunk has an empty (falsy) delta. -/
def demoOracle : LLMOracle :=
  { embed := fun _ => .ok [[1]]
    search := fun _ _ _ => .ok
      [{ id := "chunk1", score := 9 / 10, text := pystr "Alpha." },
       { id := "chunk2", score := 1 / 2, text := pystr "Beta." }]
    complete := fun _ => .ok
      { content := pystr "The answer.", usage := { total_tokens := 42, total_cost := 1 / 1000 } }
    stream := fun _ => ([{ delta := pystr "Hel", usage := none },
                         { delta := pystr "", usage := none },
                         { delta := pystr "lo", usage := some 42 }], none) }

/-- C1 witness: on `demoOracle` with the default configuration, only the
score-0.9 result passes the 0.7 threshold; the response's sources and
chunk count come from that single result. -/
theorem c1_query_excludes_subthreshold_witness :
    query {} demoOracle (pystr "q") [] none = .ok
      { answer := pystr "The answer.",
        sources := (filterResults {} [{ id := "chunk1", score := 9 / 10, text := pystr "Alpha." },
            { id := "chunk2", score := 1 / 2, text := pystr "Beta." }]).map (·.id),
        source_texts := ((filterResults {} [{ id := "chunk1", score := 9 / 10, text := pystr "Alpha." },
            { id := "chunk2", score := 1 / 2, text := pystr "Beta." }]).take 3).map
          (fun r => r.text.take 200 ++ pystr "..."),
        tokens_used := 42,
        cost := 1 / 1000,
        context_chunks := (filterResults {} [{ id := "chunk1", score := 9 / 10, text := pystr "Alpha." },
            { id := "chunk2", score := 1 / 2, text := pystr "Beta." }]).length } ∧
    (filterResults {} [{ id := "chunk1", score := 9 / 10, text := pystr "Alpha." },
        { id := "chunk2", score := 1 / 2, text := pystr "Beta." }]).map (·.id) = ["chunk1"] :=
  ⟨(c1_query_excludes_subthreshold {} demoOracle (pystr "q") [] none
      [1] [] _ _ rfl rfl rfl).1, by norm_num [filterResults, List.filter]⟩

/-- C2: on every `query_stream` run in which no stage raises, the event
sequence is exactly one `sources` event, then the `token` events, then
exactly one terminal `done` event: one `sources` event preceding every
`token` event, exactly one terminal event, which is `done` and not `error`
(never zero terminal events, never both), and nothing propagates. -/
theorem c2_stream_success_event_shape (cfg : RAGConfig) (o : LLMOracle)
    (q : PyStr) (hist : List LLMMessage) (fl : Option PyDict)
    (e0 : List Rat) (erest : List (List Rat)) (results : List RagSearchResult)
    (he : o.embed q = .ok (e0 :: erest))
    (hs : o.search e0 cfg.top_k fl = .ok results)
    (hst : (o.stream (buildPrompt q (buildContext cfg.max_context_tokens
      (filterResults cfg results)) hist)).2 = none) :
    ∃ (srcs : List (String × PyStr × Rat)) (toks : List PyStr) (tu : Int),
      queryStream cfg o q hist fl =
        (StreamEvent.sources srcs ::
          (toks.map StreamEvent.token ++
            [StreamEvent.done tu (filterResults cfg results).length]), none) := by
  refine ⟨((filterResults cfg results).take 3).map
      (fun r => (r.id, r.text.take 200 ++ pystr "...", r.score)),
    ((o.stream (buildPrompt q (buildContext cfg.max_context_tokens
      (filterResults cfg results)) hist)).1.filterMap
        fun c => if c.delta ≠ [] then some c.delta else none),
    finalTokens (o.stream (buildPrompt q (buildContext cfg.max_context_tokens
      (filterResults cfg results)) hist)).1, ?_⟩
  simp only [queryStream, queryStreamBody, he, hs, hst, tokenEvents]
  simp

/-- C2 witness: on `demoOracle` the run emits one `sources` event, then
`token` events, then one `done` event, with nothing propagated. -/
theorem c2_stream_success_event_shape_witness :
    ∃ (srcs : List (String × PyStr × Rat)) (toks : List PyStr) (tu : Int),
      queryStream {} demoOracle (pystr "q") [] none =
        (StreamEvent.sources srcs ::
          (toks.map StreamEvent.token ++
            [StreamEvent.done tu (filterResults {}
              [{ id := "chunk1", score := 9 / 10, text := pystr "Alpha." },
               { id := "chunk2", score := 1 / 2, text := pystr "Beta." }]).length]),
         none) :=
  c2_stream_success_event_shape {} demoOracle (pystr "q") [] none
    [1] [] _ rfl rfl rfl

/-- The oracle whose embedding call raises. -/
def embedFailOracle : LLMOracle :=
  { embed := fun _ => .error "boom"
    search := fun _ _ _ => .ok []
    complete := fun _ => .ok { content := [], usage := { total_tokens := 0, total_cost := 0 } }
    stream := fun _ => ([], none) }

/-- C3 counterexample: when embedding raises before the `sources` event,
`query_stream` does NOT let the exception propagate to the caller (the
propagated-exception component is `none`): the generator's own
`except Exception` clause catches it and yields a terminal `error` event
itself — translating the failure is not left to the caller. -/
theorem c3_retrieval_failure_does_not_propagate :
    queryStream {} embedFailOracle (pystr "q") [] none =
      ([StreamEvent.error "boom"], none) := by
  rfl

/-- C3 (amended): when retrieval (embedding, or the vector search) raises
before the `sources` event, no `sources` event (and no other event of the
`try` body) is emitted; the pipeline itself catches the exception and the
consumer sees exactly one `error` event carrying it, with no exception
propagating. -/
theorem c3_retrieval_failure_single_error_event (cfg : RAGConfig)
    (o : LLMOracle) (q : PyStr) (hist : List LLMMessage) (fl : Option PyDict)
    (e : String)
    (h : o.embed q = .error e ∨
      ∃ e0 erest, o.embed q = .ok (e0 :: erest) ∧
        o.search e0 cfg.top_k fl = .error e) :
    queryStream cfg o q hist fl = ([StreamEvent.error e], none) := by
  rcases h with he | ⟨e0, erest, he, hs⟩
  · simp [queryStream, queryStreamBody, he]
  · simp [queryStream, queryStreamBody, he, hs]

/-- C3 witness: the amended statement at the concrete failing oracle. -/
theorem c3_retrieval_failure_single_error_event_witness :
    queryStream {} embedFailOracle (pystr "hello") [] none =
      ([StreamEvent.error "boom"], none) :=
  c3_retrieval_failure_single_error_event {} embedFailOracle (pystr "hello")
    [] none "boom" (Or.inl rfl)

/-- No event of the `try` body is an `error` event: those are produced only
by the `except` clause. -/
theorem body_events_not_error (cfg : RAGConfig) (o : LLMOracle) (q : PyStr)
    (hist : List LLMMessage) (fl : Option PyDict) :
    ∀ ev ∈ (queryStreamBody cfg o q hist fl).1, isErrorEv ev = false := by
  intro ev hev
  unfold queryStreamBody at hev
  rcases he : o.embed q with e | embs <;> rw [he] at hev
  · simp at hev
  · rcases embs with _ | ⟨e0, erest⟩
    · simp at hev
    · dsimp only at hev
      rcases hs : o.search e0 cfg.top_k fl with e | results <;> rw [hs] at hev
      · simp at hev
      · dsimp only at hev
        rcases hstream : (o.stream (buildPrompt q (buildContext
            cfg.max_context_tokens (filterResults cfg results)) hist)).2
          with _ | ex <;> rw [hstream] at hev <;>
          simp only [List.mem_cons, List.mem_append, List.mem_singleton,
            tokenEvents, List.mem_map, List.mem_filterMap, List.not_mem_nil,
            or_false] at hev
        · rcases hev with (rfl | ⟨a, ⟨c, hc, hdelta⟩, rfl⟩) | rfl <;> rfl
        · rcases hev with rfl | ⟨a, ⟨c, hc, hdelta⟩, rfl⟩ <;> rfl

/-- C10: the `query_stream` generator never propagates an exception to its
consumer: the propagated-exception component is always `none`, and whenever
any stage raises (the `try` body ends with an exception), the emitted
sequence is the body's events — none of which is an `error` event —
followed by exactly one terminal `error` event, after which the sequence
ends. -/
theorem c10_stream_catches_every_exception (cfg : RAGConfig) (o : LLMOracle)
    (q : PyStr) (hist : List LLMMessage) (fl : Option PyDict) :
    (queryStream cfg o q hist fl).2 = none ∧
    (∀ e, (queryStreamBody cfg o q hist fl).2 = some e →
      (queryStream cfg o q hist fl).1 =
        (queryStreamBody cfg o q hist fl).1 ++ [StreamEvent.error e] ∧
      ∀ ev ∈ (queryStreamBody cfg o q hist fl).1, isErrorEv ev = false) := by
  constructor
  · unfold queryStream
    rcases hb : queryStreamBody cfg o q hist fl with ⟨evs, _ | e⟩ <;> simp
  · intro e hbody
    refine ⟨?_, body_events_not_error cfg o q hist fl⟩
    unfold queryStream
    rcases hb : queryStreamBody cfg o q hist fl with ⟨evs, exc⟩
    rw [hb] at hbody
    simp only at hbody
    subst hbody
    simp [hb]

/-- C10 witness: at the concrete failing oracle, nothing propagates and the
sequence is the (empty) body events plus one terminal `error` event. -/
theorem c10_stream_catches_every_exception_witness :
    (queryStream {} embedFailOracle (pystr "q") [] none).2 = none ∧
    (queryStream {} embedFailOracle (pystr "q") [] none).1 =
      (queryStreamBody {} embedFailOracle (pystr "q") [] none).1 ++
        [StreamEvent.error "boom"] :=
  ⟨(c10_stream_catches_every_exception {} embedFailOracle (pystr "q") [] none).1,
   ((c10_stream_catches_every_exception {} embedFailOracle (pystr "q") [] none).2
      "boom" rfl).1⟩
